import Mathlib

/-!
Verification development for the release-packaging script
`src/scripts/release.mjs` of the autojourney-downloader-rembg repository.

The script is a linear batch job: read a version, zip each immediate
subdirectory of a fixed source root, hash and size each produced zip,
write a JSON manifest, then best-effort publish the artifacts to a
GitHub release.

We shallow-embed the script over an explicit world state:
  - the filesystem is an association list from path strings to byte lists
    (later writes shadow earlier ones) plus a set of existing directories;
  - the SHA-512 function of the crypto module is an abstract parameter
    of the run (the claims are about recorded-equals-recomputed, which is
    independent of the hash function's definition);
  - the zip container produced by the archiver library is modelled as a
    lossless, executable encoding of the named-entry list of the source
    tree (relative paths, no wrapper directory), per the archiver call
    `archive.directory(sourcePath, false)`;
  - stream events during archiving are an explicit per-folder oracle
    (a close event, or an archiver error event), mirroring the handlers
    the script registers;
  - the GitHub REST API is a record of call-result oracles, and the model
    records the trace of remote calls the script issues.
-/

namespace ReleaseScript


/-- Byte sequences (file contents). -/
abbrev Bytes := List Nat

/-- A relative file tree: list of (relative path, file contents), as the
archiver enumerates a source directory recursively. -/
abbrev Tree := List (String × Bytes)

/-- Filesystem state: files as an association list (later writes are
prepended and shadow earlier entries) and a list of existing directories. -/
structure FS where
  files : List (String × Bytes)
  dirs : List String
deriving DecidableEq

/-- Look up a file's contents (first match wins, i.e. the latest write). -/
def FS.readFile (fs : FS) (p : String) : Option Bytes :=
  match fs.files.find? (fun e => e.1 = p) with
  | some e => some e.2
  | none => none

/-- Write a file (models fs.createWriteStream / fs.writeFileSync). -/
def FS.writeFile (fs : FS) (p : String) (d : Bytes) : FS :=
  { fs with files := (p, d) :: fs.files }

/-- Does a file exist (models fs.existsSync on a file path)? -/
def FS.existsFile (fs : FS) (p : String) : Bool :=
  (fs.readFile p).isSome

/-- Does a directory exist (models fs.existsSync on a directory path)? -/
def FS.dirExists (fs : FS) (p : String) : Bool :=
  fs.dirs.contains p

/-- Create a directory (models fs.mkdirSync). -/
def FS.mkdir (fs : FS) (p : String) : FS :=
  { fs with dirs := p :: fs.dirs }

/-! ### The zip container

`zipFolder` calls `archive.directory(sourcePath, false)`: every entry of
the source tree is stored under its relative path with no enclosing
wrapper directory, and the zip container is a lossless encoding of that
entry list (compression level 9 affects only the byte layout, which we
model with a concrete executable encoding). -/

/-- Encode a string as a byte list (one code point per element). -/
def encStr (s : String) : List Nat :=
  s.toList.map Char.toNat

/-- Decode a byte list back to a string. -/
def decStr (l : List Nat) : String :=
  String.mk (l.map Char.ofNat)

/-- Length-prefix a chunk so concatenated chunks can be split again. -/
def encChunk (l : List Nat) : List Nat :=
  l.length :: l

/-- Split off one length-prefixed chunk. -/
def decChunk : List Nat → Option (List Nat × List Nat)
  | [] => none
  | n :: rest =>
      if n ≤ rest.length then some (rest.take n, rest.drop n) else none

/-- One zip entry: length-prefixed relative path, then length-prefixed
file contents. -/
def encEntry (e : String × Bytes) : List Nat :=
  encChunk (encStr e.1) ++ encChunk e.2

/-- The bytes of the zip file produced for a source tree: the
concatenated encoded entries (model of the archiver's zip container). -/
def zipArchive (t : Tree) : Bytes :=
  t.foldr (fun e acc => encEntry e ++ acc) []

/-- Extraction worker: repeatedly split off one entry. The fuel bounds
the number of entries; the archive's length always suffices. -/
def unzipAux : Nat → List Nat → Tree
  | 0, _ => []
  | n + 1, l =>
      match decChunk l with
      | none => []
      | some (nameB, rest1) =>
          match decChunk rest1 with
          | none => []
          | some (data, rest2) => (decStr nameB, data) :: unzipAux n rest2

/-- Full extraction of a zip file back to a relative file tree. -/
def unzipArchive (l : Bytes) : Tree :=
  unzipAux l.length l

/-! ### Script constants and directory listing (lines 8-9, 181-182) -/

/-- The fixed source root, `src/files`. -/
def filesSrc : String := "src/files"

/-- The fixed output root, `dist`. -/
def outputDist : String := "dist"

/-- One entry of the source root as returned by
fs.readdirSync(filesSrc, withFileTypes): a plain file, or a
subdirectory carried together with its relative file tree. -/
inductive Item where
  | file (name : String)
  | dir (name : String) (tree : Tree)
deriving DecidableEq

/-- Dirent.isDirectory(). -/
def Item.isDirectory : Item → Bool
  | .file _ => false
  | .dir _ _ => true

/-- The (name, tree) pairs of the directory entries in listing order:
items.filter(isDirectory), with each folder's file tree attached. -/
def dirsOf : List Item → List (String × Tree)
  | [] => []
  | .file _ :: rest => dirsOf rest
  | .dir n t :: rest => (n, t) :: dirsOf rest

/-! ### Digest calculator (lines 18-29) -/

/-- calculateSHA512: crypto.createHash with a sha512 digest in base64
over fs.readFileSync of the path. The digest function itself lives in
the crypto module, so it is an abstract parameter; none on a missing
file models the readFileSync throw. -/
def calculateSHA512 (sha : Bytes → String) (fs : FS) (filePath : String) :
    Option String :=
  (fs.readFile filePath).map sha

/-- getFileSize: fs.statSync(filePath).size. -/
def getFileSize (fs : FS) (filePath : String) : Option Nat :=
  (fs.readFile filePath).map List.length

/-! ### Archiver events (lines 32-52) -/

/-- Outcome of the stream events during one zipFolder call: the output
stream's close event, or an archiver error event. -/
inductive ZipEvent where
  | close
  | archiveError (msg : String)
deriving DecidableEq

/-- zipFolder's promise wiring: output.on(close) resolves, and
archive.on(error) rejects. Node fires close only once the output
stream has been flushed and closed. -/
def zipFolderSignal : ZipEvent → Except String Unit
  | .close => .ok ()
  | .archiveError m => .error m

/-! ### Manifest (lines 54-62, 195-221) -/

/-- One element of the manifest's files array. -/
structure FileEntry where
  url : String
  sha512 : String
  size : Nat
deriving DecidableEq

/-- The manifest document built by generateInfoJson. -/
structure Info where
  version : String
  files : List FileEntry
  releaseDate : String
deriving DecidableEq

/-- Serialization of one files-array element inside the manifest. -/
def encFileEntry (e : FileEntry) : Bytes :=
  encChunk (encStr e.url) ++ encChunk (encStr e.sha512) ++ encChunk [e.size]

/-- JSON.stringify(info, null, 2), modelled as an injective chunk
encoding of the document (the exact JSON text layout is irrelevant to
every claim; only the recorded fields are). -/
def generateInfoJson (info : Info) : Bytes :=
  encChunk (encStr info.version)
    ++ info.files.foldr (fun e acc => encFileEntry e ++ acc) []
    ++ encChunk (encStr info.releaseDate)

/-! ### GitHub remote (lines 64-165) -/

/-- A remote release record; only its id flows onward (asset uploads). -/
structure Release where
  id : Nat
deriving DecidableEq

/-- An error thrown during publishing; status models error.status. -/
structure ApiError where
  status : Option Nat
  message : String
deriving DecidableEq

/-- Oracles for the remote side: the outcome of getGitHubInfo (execSync
of the git remote URL plus the github pattern match, which either
yields owner/repo coordinates or throws), and the REST endpoints. -/
structure RemoteAPI where
  gitRemote : Except ApiError (String × String)
  getReleaseByTag : String → Except ApiError Release
  createRelease : String → Except ApiError Release
  uploadReleaseAsset : Nat → String → Bytes → Except ApiError Unit

/-- The trace of remote REST calls the script performs. -/
inductive Call where
  | getReleaseByTag (tag : String)
  | createRelease (tag : String)
  | uploadReleaseAsset (releaseId : Nat) (assetName : String)
deriving DecidableEq

/-- The tag used to locate or create the release. -/
def tagOf (version : String) : String := "v" ++ version

/-- Result of one publisher phase: calls issued, console lines, and the
error reaching the enclosing catch, if any. Log lines interpolating
release.html_url are modelled without the URL. -/
structure PubResult where
  calls : List Call
  logs : List String
  caught : Option ApiError
deriving DecidableEq

/-- Lines 93-120: fetch the release by tag; a 404 from the fetch
creates a new draft release with that tag; any other error rethrows. -/
def fetchOrCreateRelease (api : RemoteAPI) (version : String) :
    List Call × List String × Except ApiError Release :=
  let tag := tagOf version
  match api.getReleaseByTag tag with
  | .ok r => ([.getReleaseByTag tag], ["📋 找到已存在的release"], .ok r)
  | .error e =>
      if e.status = some 404 then
        match api.createRelease tag with
        | .ok r =>
            ([.getReleaseByTag tag, .createRelease tag],
             ["✅ 创建新的draft release"], .ok r)
        | .error e2 =>
            ([.getReleaseByTag tag, .createRelease tag], [], .error e2)
      else ([.getReleaseByTag tag], [], .error e)

/-- Lines 124-140: the asset upload loop. A file that exists on disk is
read and uploaded (an upload error rethrows); a missing file is
skipped, the loop body being guarded by fs.existsSync with no else
branch. -/
def uploadLoop (api : RemoteAPI) (relId : Nat) (outputDir : String) (fs : FS) :
    List FileEntry → List Call × List String × Option ApiError
  | [] => ([], [], none)
  | f :: rest =>
      let filePath := outputDir ++ "/" ++ f.url
      match fs.readFile filePath with
      | none => uploadLoop api relId outputDir fs rest
      | some buf =>
          match api.uploadReleaseAsset relId f.url buf with
          | .ok _ =>
              let (cs, ls, e) := uploadLoop api relId outputDir fs rest
              (Call.uploadReleaseAsset relId f.url :: cs,
               ("📤 上传: " ++ f.url) :: ("✅ 上传完成: " ++ f.url) :: ls, e)
          | .error e =>
              ([Call.uploadReleaseAsset relId f.url],
               [("📤 上传: " ++ f.url)], some e)

/-- Lines 85-158: the body of createGitHubRelease's try block: resolve
repository coordinates, fetch or create the release, upload each
artifact then info.json. Whatever error escapes any step is the value
reaching the catch. -/
def publishBody (api : RemoteAPI) (version : String) (files : List FileEntry)
    (outputDir : String) (fs : FS) : PubResult :=
  match api.gitRemote with
  | .error e => { calls := [], logs := [], caught := some e }
  | .ok (owner, repo) =>
      let logs0 := ["🔗 GitHub仓库: " ++ owner ++ "/" ++ repo]
      let (cs1, ls1, res) := fetchOrCreateRelease api version
      match res with
      | .error e => { calls := cs1, logs := logs0 ++ ls1, caught := some e }
      | .ok rel =>
          let logs1 := logs0 ++ ls1 ++ ["📤 开始上传文件到GitHub release..."]
          let (cs2, ls2, err) := uploadLoop api rel.id outputDir fs files
          match err with
          | some e =>
              { calls := cs1 ++ cs2, logs := logs1 ++ ls2, caught := some e }
          | none =>
              let infoPath := outputDir ++ "/info.json"
              match fs.readFile infoPath with
              | some buf =>
                  match api.uploadReleaseAsset rel.id "info.json" buf with
                  | .ok _ =>
                      { calls := cs1 ++ cs2 ++ [.uploadReleaseAsset rel.id "info.json"],
                        logs := logs1 ++ ls2
                          ++ ["📤 上传: info.json", "✅ 上传完成: info.json",
                              "🎉 GitHub release创建完成"],
                        caught := none }
                  | .error e =>
                      { calls := cs1 ++ cs2 ++ [.uploadReleaseAsset rel.id "info.json"],
                        logs := logs1 ++ ls2 ++ ["📤 上传: info.json"],
                        caught := some e }
              | none =>
                  { calls := cs1 ++ cs2,
                    logs := logs1 ++ ls2 ++ ["🎉 GitHub release创建完成"],
                    caught := none }

/-- Lines 159-164: the catch block's console output: the failure line,
plus the token hint when the error status is 401. -/
def catchLogs (e : ApiError) : List String :=
  ("❌ GitHub release创建失败: " ++ e.message)
    :: (if e.status = some 401 then ["💡 请检查GH_TOKEN是否正确设置"] else [])

/-- Lines 78-165: createGitHubRelease. A missing GH_TOKEN skips
publishing entirely; otherwise the try body runs, and any error it
throws is caught and logged, never rethrown. -/
def createGitHubRelease (api : RemoteAPI) (token : Option String)
    (version : String) (files : List FileEntry) (outputDir : String)
    (fs : FS) : PubResult :=
  match token with
  | none =>
      { calls := [],
        logs := ["⚠️  GH_TOKEN 环境变量未设置，跳过GitHub release创建"],
        caught := none }
  | some _ =>
      let b := publishBody api version files outputDir fs
      match b.caught with
      | some e => { b with logs := b.logs ++ catchLogs e }
      | none => b

/-! ### Orchestrator (lines 167-242) -/

/-- The whole world a run observes: the version from package.json, the
timestamp captured when the manifest is built, the crypto digest
function, the GH_TOKEN variable, the source-root listing, the stream
outcome of each folder's archiving, the remote oracles and the initial
filesystem. -/
structure World where
  version : String
  releaseDate : String
  sha : Bytes → String
  token : Option String
  items : List Item
  zipEvent : String → ZipEvent
  api : RemoteAPI
  fs0 : FS

/-- What a run produces: the process exit code, the final filesystem,
the manifest document written (if reached), and the publisher's calls
and console lines. -/
structure RunResult where
  exitCode : Nat
  fs : FS
  manifest : Option Info
  calls : List Call
  pubLogs : List String
deriving DecidableEq

/-- Lines 195-216: the per-folder loop. Each folder is zipped to
outputDir slash name.zip (an archiver error rejects and aborts the
loop), then the fresh zip is hashed and sized and an entry is
accumulated. The filesystem resulting from the completed writes is
returned alongside the entries or the first error. -/
def runFolders (sha : Bytes → String) (zipEvent : String → ZipEvent)
    (outputDir : String) (fs : FS) :
    List (String × Tree) → FS × Except String (List FileEntry)
  | [] => (fs, .ok [])
  | (name, tree) :: rest =>
      let outputPath := outputDir ++ "/" ++ name ++ ".zip"
      match zipEvent name with
      | .archiveError m => (fs, .error m)
      | .close =>
          let fs1 := fs.writeFile outputPath (zipArchive tree)
          match calculateSHA512 sha fs1 outputPath, getFileSize fs1 outputPath with
          | some s, some n =>
              let out := runFolders sha zipEvent outputDir fs1 rest
              (out.1, out.2.map
                (fun es => { url := name ++ ".zip", sha512 := s, size := n } :: es))
          | _, _ => (fs1, .error "ENOENT")

/-- Lines 167-242: main. Resolve the version, ensure the output
directory dist slash version exists, list the source root, abort with
exit 1 when it has no subdirectories, else zip-hash-size each folder,
write info.json, and hand off to the publisher; any error thrown in
the try body exits 1. -/
def main (w : World) : RunResult :=
  let version := w.version
  let outputDir := outputDist ++ "/" ++ version
  let fs1 := if w.fs0.dirExists outputDir then w.fs0 else w.fs0.mkdir outputDir
  let folders := dirsOf w.items
  if folders.length = 0 then
    { exitCode := 1, fs := fs1, manifest := none, calls := [], pubLogs := [] }
  else
    match runFolders w.sha w.zipEvent outputDir fs1 folders with
    | (fs2, .error _) =>
        { exitCode := 1, fs := fs2, manifest := none, calls := [], pubLogs := [] }
    | (fs2, .ok entries) =>
        let info : Info :=
          { version := version, files := entries, releaseDate := w.releaseDate }
        let fs3 := fs2.writeFile (outputDir ++ "/info.json") (generateInfoJson info)
        let pub := createGitHubRelease w.api w.token version entries outputDir fs3
        { exitCode := 0, fs := fs3, manifest := some info,
          calls := pub.calls, pubLogs := pub.logs }

/-- The file entry the loop records for one source folder. -/
def entryOf (sha : Bytes → String) (pr : String × Tree) : FileEntry :=
  { url := pr.1 ++ ".zip", sha512 := sha (zipArchive pr.2),
    size := (zipArchive pr.2).length }

/-! ### Run-level abbreviations and lemmas -/

/-- The output directory of a run, dist slash version. -/
def outDirOf (w : World) : String := outputDist ++ "/" ++ w.version

/-- The filesystem after main's mkdir step. -/
def fsAfterMkdir (w : World) : FS :=
  if w.fs0.dirExists (outDirOf w) then w.fs0 else w.fs0.mkdir (outDirOf w)

/-- The folders main iterates over. -/
def foldersOf (w : World) : List (String × Tree) := dirsOf w.items

/-- The manifest entries a fully successful loop accumulates. -/
def entriesOf (w : World) : List FileEntry := (foldersOf w).map (entryOf w.sha)

/-- The manifest document of a fully successful run. -/
def infoOf (w : World) : Info :=
  { version := w.version, files := entriesOf w, releaseDate := w.releaseDate }

/-- The filesystem after all folders have been zipped. -/
def fsZipped (w : World) : FS :=
  (runFolders w.sha w.zipEvent (outDirOf w) (fsAfterMkdir w) (foldersOf w)).1

/-- The filesystem at manifest-write time (and at end of run). -/
def fsFinal (w : World) : FS :=
  (fsZipped w).writeFile (outDirOf w ++ "/info.json") (generateInfoJson (infoOf w))

/-- The publisher's outcome in a fully successful run. -/
def pubOf (w : World) : PubResult :=
  createGitHubRelease w.api w.token w.version (entriesOf w) (outDirOf w) (fsFinal w)

/-- The console lines the upload loop prints for a list of artifacts it
actually uploads. -/
def uploadLogsOf (files : List FileEntry) : List String :=
  files.foldr
    (fun f acc => ("📤 上传: " ++ f.url) :: ("✅ 上传完成: " ++ f.url) :: acc) []

/-- Is pat a prefix of l (decidable, executable)? -/
def listHasPre [DecidableEq α] : List α → List α → Bool
  | [], _ => true
  | _ :: _, [] => false
  | a :: as, b :: bs => a = b && listHasPre as bs

/-- Does pat occur as a contiguous run inside l? -/
def listHasSub [DecidableEq α] (p : List α) : List α → Bool
  | [] => listHasPre p []
  | b :: bs => listHasPre p (b :: bs) || listHasSub p bs

/-- Does a console line mention the given text? -/
def strMentions (pat s : String) : Bool := listHasSub pat.data s.data

/-- The asset name an upload call carries, if it is an upload call. -/
def Call.assetName : Call → Option String
  | .uploadReleaseAsset _ n => some n
  | _ => none

/-! ### Sample worlds for concrete evaluation -/

/-- A sample source folder tree. -/
def sampleTree : Tree := [("a.txt", [104, 105]), ("sub/b.bin", [0, 255])]

/-- A sample remote whose release does not exist yet (404 on fetch). -/
def sampleApi : RemoteAPI :=
  { gitRemote := Except.ok ("owner", "repo"),
    getReleaseByTag := fun _ =>
      Except.error { status := some 404, message := "Not Found" },
    createRelease := fun _ => Except.ok { id := 7 },
    uploadReleaseAsset := fun _ _ _ => Except.ok () }

/-- A sample world: one source folder, one stray file, no token. -/
def sampleWorld : World :=
  { version := "1.2.0", releaseDate := "2026-01-01T00:00:00.000Z",
    sha := decStr, token := none,
    items := [Item.dir "core" sampleTree, Item.file "README.md"],
    zipEvent := fun _ => ZipEvent.close,
    api := sampleApi,
    fs0 := { files := [], dirs := [] } }

/-- The sample world with a failing archive stream. -/
def sampleWorldErr : World :=
  { sampleWorld with zipEvent := fun _ => ZipEvent.archiveError "write EPIPE" }

/-- The sample world whose source root holds only plain files. -/
def sampleWorldEmpty : World :=
  { sampleWorld with items := [Item.file "stray.txt"] }

/-- A remote whose tagged release already exists and accepts uploads. -/
def cexApiOk : RemoteAPI :=
  { sampleApi with getReleaseByTag := fun _ => Except.ok { id := 5 } }

/-- A remote that rejects the credential at coordinate resolution. -/
def sampleApi401 : RemoteAPI :=
  { sampleApi with
    gitRemote := Except.error { status := some 401, message := "Bad credentials" } }

/-- An on-disk state where a.zip and info.json exist but b.zip is missing. -/
def cexFS : FS :=
  { files := [("dist/1.2.0/a.zip", [1, 2, 3]), ("dist/1.2.0/info.json", [9])],
    dirs := ["dist/1.2.0"] }

/-- Two manifest entries, the second one's zip missing from disk. -/
def cexFiles : List FileEntry :=
  [{ url := "a.zip", sha512 := "h1", size := 3 },
   { url := "b.zip", sha512 := "h2", size := 4 }]

/-- The publisher run on the state with the missing b.zip. -/
def cexPub : PubResult :=
  createGitHubRelease cexApiOk (some "tok") "1.2.0" cexFiles "dist/1.2.0" cexFS

/-! ### Theorems -/

theorem FS.readFile_writeFile (fs : FS) (p : String) (d : Bytes) :
    (fs.writeFile p d).readFile p = some d := by
  simp [FS.readFile, FS.writeFile, List.find?]

theorem FS.readFile_writeFile_ne (fs : FS) (p q : String) (d : Bytes)
    (h : p ≠ q) : (fs.writeFile p d).readFile q = fs.readFile q := by
  simp [FS.readFile, FS.writeFile, List.find?, h]

theorem FS.dirs_writeFile (fs : FS) (p : String) (d : Bytes) :
    (fs.writeFile p d).dirs = fs.dirs := rfl

theorem decChunk_encChunk (l rest : List Nat) :
    decChunk (encChunk l ++ rest) = some (l, rest) := by
  simp [decChunk, encChunk]

theorem map_ofNat_toNat (l : List Char) :
    l.map (Char.ofNat ∘ Char.toNat) = l := by
  induction l with
  | nil => rfl
  | cons c cs ih => simp [Function.comp, ih]

theorem decStr_encStr (s : String) : decStr (encStr s) = s := by
  cases s with
  | mk data => simp [decStr, encStr, List.map_map, map_ofNat_toNat]

theorem unzipAux_nil (fuel : Nat) : unzipAux fuel [] = [] := by
  cases fuel <;> simp [unzipAux, decChunk]

theorem length_le_zipArchive (t : Tree) : t.length ≤ (zipArchive t).length := by
  induction t with
  | nil => simp [zipArchive]
  | cons e t ih =>
      simp only [zipArchive, List.foldr_cons, List.length_append, List.length_cons]
      have : (encEntry e).length = (encStr e.1).length + e.2.length + 2 := by
        simp [encEntry, encChunk]; omega
      simp only [zipArchive] at ih
      omega

theorem unzipAux_zipArchive (t : Tree) :
    ∀ fuel, t.length ≤ fuel → unzipAux fuel (zipArchive t) = t := by
  induction t with
  | nil => intro fuel _; simp [zipArchive, unzipAux_nil]
  | cons e t ih =>
      intro fuel hle
      match fuel with
      | 0 => simp at hle
      | n + 1 =>
          have harr : zipArchive (e :: t)
              = encChunk (encStr e.1) ++ (encChunk e.2 ++ zipArchive t) := by
            simp [zipArchive, encEntry]
          rw [harr]
          simp only [unzipAux, decChunk_encChunk]
          rw [decStr_encStr, ih n (by simpa using hle)]

/-- The zip container is lossless: extracting the archive of a tree
returns exactly that tree. -/
theorem unzipArchive_zipArchive (t : Tree) :
    unzipArchive (zipArchive t) = t :=
  unzipAux_zipArchive t _ (length_le_zipArchive t)

/-! ### Path helpers -/

theorem string_data_inj {s t : String} (h : s.data = t.data) : s = t := by
  cases s; cases t; simp_all

theorem zipdata_ne_infodata (l : List Char) :
    l ++ ['.', 'z', 'i', 'p'] ≠ ['i', 'n', 'f', 'o', '.', 'j', 's', 'o', 'n'] := by
  intro h
  have hr := congrArg List.reverse h
  rw [List.reverse_append] at hr
  have h1 : (['.', 'z', 'i', 'p'] : List Char).reverse = ['p', 'i', 'z', '.'] := by
    decide
  have h2 : (['i', 'n', 'f', 'o', '.', 'j', 's', 'o', 'n'] : List Char).reverse
      = ['n', 'o', 's', 'j', '.', 'o', 'f', 'n', 'i'] := by decide
  rw [h1, h2] at hr
  simp only [List.cons_append, List.cons.injEq] at hr
  exact absurd hr.1 (by decide)

theorem zipPath_ne_infoPath (dir n : String) :
    dir ++ "/" ++ n ++ ".zip" ≠ dir ++ "/info.json" := by
  intro h
  have hd := congrArg String.data h
  simp only [String.data_append, List.append_assoc] at hd
  have h1 := List.append_cancel_left hd
  simp only [List.singleton_append, List.cons.injEq, true_and] at h1
  exact zipdata_ne_infodata n.data h1

theorem zipPath_inj {dir n m : String}
    (h : dir ++ "/" ++ n ++ ".zip" = dir ++ "/" ++ m ++ ".zip") : n = m := by
  have hd := congrArg String.data h
  simp only [String.data_append, List.append_assoc] at hd
  have h1 := List.append_cancel_left (List.append_cancel_left hd)
  exact string_data_inj (List.append_cancel_right h1)

/-! ### Digest and loop lemmas -/

theorem calculateSHA512_writeFile (sha : Bytes → String) (fs : FS)
    (p : String) (d : Bytes) :
    calculateSHA512 sha (fs.writeFile p d) p = some (sha d) := by
  simp [calculateSHA512, FS.readFile_writeFile]

theorem getFileSize_writeFile (fs : FS) (p : String) (d : Bytes) :
    getFileSize (fs.writeFile p d) p = some d.length := by
  simp [getFileSize, FS.readFile_writeFile]

theorem dirsOf_filter (items : List Item) :
    dirsOf (items.filter Item.isDirectory) = dirsOf items := by
  induction items with
  | nil => rfl
  | cons i rest ih => cases i <;> simp [dirsOf, Item.isDirectory, List.filter, ih]

theorem dirsOf_eq_nil (items : List Item)
    (h : ∀ i ∈ items, i.isDirectory = false) : dirsOf items = [] := by
  induction items with
  | nil => rfl
  | cons i rest ih =>
      cases i with
      | file n => exact ih fun j hj => h j (List.mem_cons_of_mem _ hj)
      | dir n t => exact absurd (h _ (List.mem_cons_self _ _)) (by simp [Item.isDirectory])

theorem runFolders_dirs (sha : Bytes → String) (ev : String → ZipEvent)
    (dir : String) :
    ∀ (l : List (String × Tree)) (fs : FS),
      (runFolders sha ev dir fs l).1.dirs = fs.dirs := by
  intro l
  induction l with
  | nil => intro fs; rfl
  | cons pr rest ih =>
      intro fs
      obtain ⟨name, tree⟩ := pr
      cases hev : ev name with
      | archiveError m => simp [runFolders, hev]
      | close =>
          simp only [runFolders, hev, calculateSHA512_writeFile,
            getFileSize_writeFile]
          rw [ih]
          rfl

theorem runFolders_readFile_other (sha : Bytes → String) (ev : String → ZipEvent)
    (dir : String) (p : String) :
    ∀ (l : List (String × Tree)) (fs : FS),
      (∀ pr ∈ l, dir ++ "/" ++ pr.1 ++ ".zip" ≠ p) →
      (runFolders sha ev dir fs l).1.readFile p = fs.readFile p := by
  intro l
  induction l with
  | nil => intro fs _; rfl
  | cons pr rest ih =>
      intro fs hne
      obtain ⟨name, tree⟩ := pr
      cases hev : ev name with
      | archiveError m => simp [runFolders, hev]
      | close =>
          have hhd : dir ++ "/" ++ name ++ ".zip" ≠ p :=
            hne (name, tree) (List.mem_cons_self _ _)
          have htl : ∀ pr ∈ rest, dir ++ "/" ++ pr.1 ++ ".zip" ≠ p :=
            fun pr hpr => hne pr (List.mem_cons_of_mem _ hpr)
          simp only [runFolders, hev, calculateSHA512_writeFile,
            getFileSize_writeFile]
          rw [ih _ htl, FS.readFile_writeFile_ne _ _ _ _ hhd]

theorem runFolders_ok_of_close (sha : Bytes → String) (ev : String → ZipEvent)
    (dir : String) :
    ∀ (l : List (String × Tree)) (fs : FS),
      (∀ pr ∈ l, ev pr.1 = .close) →
      (runFolders sha ev dir fs l).2 = .ok (l.map (entryOf sha)) := by
  intro l
  induction l with
  | nil => intro fs _; rfl
  | cons pr rest ih =>
      intro fs hev
      obtain ⟨name, tree⟩ := pr
      have hhd : ev name = .close := hev (name, tree) (List.mem_cons_self _ _)
      have htl : ∀ pr ∈ rest, ev pr.1 = .close :=
        fun pr hpr => hev pr (List.mem_cons_of_mem _ hpr)
      simp [runFolders, hhd, calculateSHA512_writeFile, getFileSize_writeFile,
        ih _ htl, entryOf, Except.map]

theorem runFolders_error_of_event (sha : Bytes → String) (ev : String → ZipEvent)
    (dir : String) :
    ∀ (l : List (String × Tree)) (fs : FS),
      (∃ pr ∈ l, ∃ m, ev pr.1 = .archiveError m) →
      ∃ m', (runFolders sha ev dir fs l).2 = .error m' := by
  intro l
  induction l with
  | nil => intro fs h; simp at h
  | cons pr rest ih =>
      intro fs h
      obtain ⟨name, tree⟩ := pr
      cases hev : ev name with
      | archiveError m => exact ⟨m, by simp [runFolders, hev]⟩
      | close =>
          obtain ⟨qr, hqr, m, hm⟩ := h
          rcases List.mem_cons.mp hqr with heq | hmem
          · rw [heq] at hm; rw [hev] at hm; exact absurd hm (by simp)
          · obtain ⟨m', hm'⟩ := ih (fs.writeFile (dir ++ "/" ++ name ++ ".zip")
              (zipArchive tree)) ⟨qr, hmem, m, hm⟩
            refine ⟨m', ?_⟩
            simp only [runFolders, hev, calculateSHA512_writeFile,
              getFileSize_writeFile]
            rw [hm']
            rfl

theorem runFolders_ok_entries (sha : Bytes → String) (ev : String → ZipEvent)
    (dir : String) :
    ∀ (l : List (String × Tree)) (fs : FS) (es : List FileEntry),
      (runFolders sha ev dir fs l).2 = .ok es → es = l.map (entryOf sha) := by
  intro l
  induction l with
  | nil => intro fs es h; simpa [runFolders] using h.symm
  | cons pr rest ih =>
      intro fs es h
      obtain ⟨name, tree⟩ := pr
      cases hev : ev name with
      | archiveError m => simp [runFolders, hev] at h
      | close =>
          simp only [runFolders, hev, calculateSHA512_writeFile,
            getFileSize_writeFile] at h
          cases hrec : (runFolders sha ev dir
              (fs.writeFile (dir ++ "/" ++ name ++ ".zip") (zipArchive tree))
              rest).2 with
          | error m => rw [hrec] at h; simp [Except.map] at h
          | ok es' =>
              rw [hrec] at h
              simp only [Except.map, Except.ok.injEq] at h
              rw [← h, ih _ _ hrec]
              simp [entryOf]

theorem runFolders_readback (sha : Bytes → String) (ev : String → ZipEvent)
    (dir : String) :
    ∀ (l : List (String × Tree)) (fs : FS) (es : List FileEntry),
      (l.map Prod.fst).Nodup →
      (runFolders sha ev dir fs l).2 = .ok es →
      ∀ pr ∈ l, (runFolders sha ev dir fs l).1.readFile
          (dir ++ "/" ++ pr.1 ++ ".zip") = some (zipArchive pr.2) := by
  intro l
  induction l with
  | nil => intro fs es _ _ pr hpr; simp at hpr
  | cons hd rest ih =>
      intro fs es hnd hok pr hpr
      obtain ⟨name, tree⟩ := hd
      cases hev : ev name with
      | archiveError m => simp [runFolders, hev] at hok
      | close =>
          have hnd' : (name :: rest.map Prod.fst).Nodup := by
            simpa only [List.map_cons] using hnd
          have hnotin : name ∉ rest.map Prod.fst := (List.nodup_cons.mp hnd').1
          have hndr : (rest.map Prod.fst).Nodup := (List.nodup_cons.mp hnd').2
          simp only [runFolders, hev, calculateSHA512_writeFile,
            getFileSize_writeFile] at hok ⊢
          set fs1 := fs.writeFile (dir ++ "/" ++ name ++ ".zip")
            (zipArchive tree) with hfs1
          cases hrec : (runFolders sha ev dir fs1 rest).2 with
          | error m => rw [hrec] at hok; simp [Except.map] at hok
          | ok es' =>
              rcases List.mem_cons.mp hpr with heq | hmem
              · subst heq
                have hother : ∀ qr ∈ rest,
                    dir ++ "/" ++ qr.1 ++ ".zip" ≠ dir ++ "/" ++ name ++ ".zip" := by
                  intro qr hqr habs
                  exact hnotin (zipPath_inj habs ▸ List.mem_map_of_mem Prod.fst hqr)
                rw [runFolders_readFile_other sha ev dir _ rest fs1 hother]
                exact FS.readFile_writeFile fs _ _
              · exact ih fs1 es' hndr hrec pr hmem

/-! ### Publisher lemmas -/

theorem uploadLoop_calls_relId (api : RemoteAPI) (relId : Nat)
    (outputDir : String) (fs : FS) :
    ∀ (files : List FileEntry), ∀ c ∈ (uploadLoop api relId outputDir fs files).1,
      ∃ a, c = Call.uploadReleaseAsset relId a := by
  intro files
  induction files with
  | nil => intro c hc; simp [uploadLoop] at hc
  | cons f rest ih =>
      intro c hc
      simp only [uploadLoop] at hc
      cases hrf : fs.readFile (outputDir ++ "/" ++ f.url) with
      | none => simp only [hrf] at hc; exact ih c hc
      | some buf =>
          simp only [hrf] at hc
          cases hup : api.uploadReleaseAsset relId f.url buf with
          | ok u =>
              simp only [hup] at hc
              rcases List.mem_cons.mp hc with heq | hmem
              · exact ⟨f.url, heq⟩
              · exact ih c hmem
          | error e =>
              simp only [hup] at hc
              rcases List.mem_cons.mp hc with heq | hmem
              · exact ⟨f.url, heq⟩
              · simp at hmem

theorem fetchOrCreate_calls_no_upload (api : RemoteAPI) (version : String) :
    ∀ c ∈ (fetchOrCreateRelease api version).1, ∀ i a,
      c ≠ Call.uploadReleaseAsset i a := by
  intro c hc i a
  simp only [fetchOrCreateRelease] at hc
  cases hg : api.getReleaseByTag (tagOf version) with
  | ok r =>
      simp only [hg, List.mem_singleton] at hc
      subst hc; simp
  | error e =>
      simp only [hg] at hc
      by_cases h404 : e.status = some 404
      · rw [if_pos h404] at hc
        cases hcr : api.createRelease (tagOf version) with
        | ok r =>
            simp only [hcr, List.mem_cons, List.mem_singleton,
              List.not_mem_nil, or_false] at hc
            rcases hc with rfl | rfl <;> simp
        | error e2 =>
            simp only [hcr, List.mem_cons, List.mem_singleton,
              List.not_mem_nil, or_false] at hc
            rcases hc with rfl | rfl <;> simp
      · rw [if_neg h404] at hc
        simp only [List.mem_singleton] at hc
        subst hc; simp

theorem publishBody_upload_id (api : RemoteAPI) (version : String)
    (files : List FileEntry) (outputDir : String) (fs : FS)
    (cs1 : List Call) (ls1 : List String) (rel : Release)
    (hfetch : fetchOrCreateRelease api version = (cs1, ls1, .ok rel)) :
    ∀ i a, Call.uploadReleaseAsset i a ∈ (publishBody api version files outputDir fs).calls →
      i = rel.id := by
  intro i a hmem
  have hcs1 : ∀ c ∈ cs1, ∀ j b, c ≠ Call.uploadReleaseAsset j b := by
    intro c hc
    exact fetchOrCreate_calls_no_upload api version c (by rw [hfetch]; exact hc)
  have hcs2 := uploadLoop_calls_relId api rel.id outputDir fs files
  simp only [publishBody] at hmem
  cases hgr : api.gitRemote with
  | error e => simp only [hgr] at hmem; simp at hmem
  | ok pr =>
      obtain ⟨owner, repo⟩ := pr
      simp only [hgr, hfetch] at hmem
      cases hul : uploadLoop api rel.id outputDir fs files with
      | mk cs2 rest2 =>
          obtain ⟨ls2, err⟩ := rest2
          have hcs2' : ∀ c ∈ cs2, ∃ b, c = Call.uploadReleaseAsset rel.id b := by
            intro c hc; exact hcs2 c (by rw [hul]; exact hc)
          cases err with
          | some e =>
              simp only [hul] at hmem
              simp only [List.mem_append] at hmem
              rcases hmem with h | h
              · exact absurd rfl (hcs1 _ h i a)
              · obtain ⟨b, hb⟩ := hcs2' _ h
                injection hb with h1 h2
          | none =>
              simp only [hul] at hmem
              cases hri : fs.readFile (outputDir ++ "/info.json") with
              | some buf =>
                  simp only [hri] at hmem
                  cases hup : api.uploadReleaseAsset rel.id "info.json" buf with
                  | ok u =>
                      simp only [hup] at hmem
                      simp only [List.mem_append] at hmem
                      rcases hmem with (h | h) | h
                      · exact absurd rfl (hcs1 _ h i a)
                      · obtain ⟨b, hb⟩ := hcs2' _ h
                        injection hb with h1 h2
                      · simp only [List.mem_singleton] at h
                        injection h with h1 h2
                  | error e =>
                      simp only [hup] at hmem
                      simp only [List.mem_append] at hmem
                      rcases hmem with (h | h) | h
                      · exact absurd rfl (hcs1 _ h i a)
                      · obtain ⟨b, hb⟩ := hcs2' _ h
                        injection hb with h1 h2
                      · simp only [List.mem_singleton] at h
                        injection h with h1 h2
              | none =>
                  simp only [hri] at hmem
                  simp only [List.mem_append] at hmem
                  rcases hmem with h | h
                  · exact absurd rfl (hcs1 _ h i a)
                  · obtain ⟨b, hb⟩ := hcs2' _ h
                    injection hb with h1 h2

theorem main_zero_folders (w : World) (h : foldersOf w = []) :
    main w = { exitCode := 1, fs := fsAfterMkdir w, manifest := none,
               calls := [], pubLogs := [] } := by
  simp only [foldersOf] at h
  simp [main, h, outDirOf, fsAfterMkdir, outputDist]

theorem main_success (w : World) (hne : foldersOf w ≠ [])
    (hev : ∀ pr ∈ foldersOf w, w.zipEvent pr.1 = .close) :
    main w = { exitCode := 0, fs := fsFinal w, manifest := some (infoOf w),
               calls := (pubOf w).calls, pubLogs := (pubOf w).logs } := by
  have hlen : ¬ (dirsOf w.items).length = 0 := by
    simpa [foldersOf, List.length_eq_zero] using hne
  have hok := runFolders_ok_of_close w.sha w.zipEvent (outDirOf w)
    (foldersOf w) (fsAfterMkdir w) hev
  have hpair : runFolders w.sha w.zipEvent (outDirOf w) (fsAfterMkdir w)
        (foldersOf w)
      = ((runFolders w.sha w.zipEvent (outDirOf w) (fsAfterMkdir w)
            (foldersOf w)).1,
         Except.ok ((foldersOf w).map (entryOf w.sha))) := by
    conv_lhs => rw [← Prod.mk.eta (p := runFolders w.sha w.zipEvent (outDirOf w)
      (fsAfterMkdir w) (foldersOf w))]
    rw [hok]
  simp only [main, outDirOf, fsAfterMkdir, foldersOf, outputDist] at hpair ⊢
  rw [if_neg hlen, hpair]
  simp only [fsFinal, fsZipped, infoOf, pubOf, entriesOf, outDirOf, fsAfterMkdir,
    foldersOf, outputDist]

theorem main_error (w : World) (hne : foldersOf w ≠ [])
    (herr : ∃ pr ∈ foldersOf w, ∃ m, w.zipEvent pr.1 = .archiveError m) :
    (main w).exitCode = 1 := by
  have hlen : ¬ (dirsOf w.items).length = 0 := by
    simpa [foldersOf, List.length_eq_zero] using hne
  obtain ⟨m', hm'⟩ := runFolders_error_of_event w.sha w.zipEvent (outDirOf w)
    (foldersOf w) (fsAfterMkdir w) herr
  have hpair : runFolders w.sha w.zipEvent (outDirOf w) (fsAfterMkdir w)
        (foldersOf w)
      = ((runFolders w.sha w.zipEvent (outDirOf w) (fsAfterMkdir w)
            (foldersOf w)).1, Except.error m') := by
    conv_lhs => rw [← Prod.mk.eta (p := runFolders w.sha w.zipEvent (outDirOf w)
      (fsAfterMkdir w) (foldersOf w))]
    rw [hm']
  simp only [outDirOf, fsAfterMkdir, foldersOf, outputDist] at hpair
  simp only [main, outputDist]
  rw [if_neg hlen, hpair]

theorem runFolders_preserves_some (sha : Bytes → String) (ev : String → ZipEvent)
    (dir : String) (p : String) :
    ∀ (l : List (String × Tree)) (fs : FS) (c : Bytes),
      (∀ pr ∈ l, ev pr.1 = .close) → fs.readFile p = some c →
      ∃ c', (runFolders sha ev dir fs l).1.readFile p = some c' := by
  intro l
  induction l with
  | nil => intro fs c _ h; exact ⟨c, h⟩
  | cons pr rest ih =>
      intro fs c hev h
      obtain ⟨name, tree⟩ := pr
      have hhd : ev name = .close := hev (name, tree) (List.mem_cons_self _ _)
      have htl : ∀ qr ∈ rest, ev qr.1 = .close :=
        fun qr hqr => hev qr (List.mem_cons_of_mem _ hqr)
      simp only [runFolders, hhd, calculateSHA512_writeFile, getFileSize_writeFile]
      by_cases hp : dir ++ "/" ++ name ++ ".zip" = p
      · exact ih _ (zipArchive tree) htl
          (by rw [← hp]; exact FS.readFile_writeFile fs _ _)
      · exact ih _ c htl (by rw [FS.readFile_writeFile_ne _ _ _ _ hp]; exact h)

theorem runFolders_writes (sha : Bytes → String) (ev : String → ZipEvent)
    (dir : String) :
    ∀ (l : List (String × Tree)) (fs : FS),
      (∀ pr ∈ l, ev pr.1 = .close) →
      ∀ pr ∈ l, ∃ c, (runFolders sha ev dir fs l).1.readFile
          (dir ++ "/" ++ pr.1 ++ ".zip") = some c := by
  intro l
  induction l with
  | nil => intro fs _ pr hpr; simp at hpr
  | cons hd rest ih =>
      intro fs hev pr hpr
      obtain ⟨name, tree⟩ := hd
      have hhd : ev name = .close := hev (name, tree) (List.mem_cons_self _ _)
      have htl : ∀ qr ∈ rest, ev qr.1 = .close :=
        fun qr hqr => hev qr (List.mem_cons_of_mem _ hqr)
      simp only [runFolders, hhd, calculateSHA512_writeFile, getFileSize_writeFile]
      rcases List.mem_cons.mp hpr with heq | hmem
      · subst heq
        exact runFolders_preserves_some sha ev dir _ rest _ (zipArchive tree)
          htl (FS.readFile_writeFile fs _ _)
      · exact ih _ htl pr hmem

theorem main_dirs (w : World) : (main w).fs.dirs = (fsAfterMkdir w).dirs := by
  by_cases hz : (dirsOf w.items).length = 0
  · rw [main_zero_folders w (by simpa [foldersOf, List.length_eq_zero] using hz)]
  · simp only [main, outputDist]
    rw [if_neg hz]
    have hd := runFolders_dirs w.sha w.zipEvent ("dist" ++ "/" ++ w.version)
      (dirsOf w.items)
      (if w.fs0.dirExists ("dist" ++ "/" ++ w.version) then w.fs0
       else w.fs0.mkdir ("dist" ++ "/" ++ w.version))
    cases hres : runFolders w.sha w.zipEvent ("dist" ++ "/" ++ w.version)
        (if w.fs0.dirExists ("dist" ++ "/" ++ w.version) then w.fs0
         else w.fs0.mkdir ("dist" ++ "/" ++ w.version)) (dirsOf w.items) with
    | mk fs2 res =>
        cases res with
        | error m =>
            simp only [fsAfterMkdir, outDirOf, outputDist]
            have : fs2 = (runFolders w.sha w.zipEvent ("dist" ++ "/" ++ w.version)
                (if w.fs0.dirExists ("dist" ++ "/" ++ w.version) then w.fs0
                 else w.fs0.mkdir ("dist" ++ "/" ++ w.version)) (dirsOf w.items)).1 := by
              rw [hres]
            rw [this] at *
            exact hd
        | ok entries =>
            simp only [fsAfterMkdir, outDirOf, outputDist, FS.dirs_writeFile]
            have : fs2 = (runFolders w.sha w.zipEvent ("dist" ++ "/" ++ w.version)
                (if w.fs0.dirExists ("dist" ++ "/" ++ w.version) then w.fs0
                 else w.fs0.mkdir ("dist" ++ "/" ++ w.version)) (dirsOf w.items)).1 := by
              rw [hres]
            rw [this]
            exact hd

theorem fsAfterMkdir_files (w : World) :
    (fsAfterMkdir w).files = w.fs0.files := by
  unfold fsAfterMkdir
  split <;> rfl

theorem uploadLoop_all_ok (api : RemoteAPI) (relId : Nat) (outputDir : String)
    (fs : FS) (hok : ∀ n b, api.uploadReleaseAsset relId n b = .ok ()) :
    ∀ files, uploadLoop api relId outputDir fs files
      = ((files.filter
            (fun f => fs.existsFile (outputDir ++ "/" ++ f.url))).map
           (fun f => Call.uploadReleaseAsset relId f.url),
         uploadLogsOf (files.filter
            (fun f => fs.existsFile (outputDir ++ "/" ++ f.url))),
         none) := by
  intro files
  induction files with
  | nil => rfl
  | cons f rest ih =>
      simp only [uploadLoop]
      cases hrf : fs.readFile (outputDir ++ "/" ++ f.url) with
      | none =>
          have hex : fs.existsFile (outputDir ++ "/" ++ f.url) = false := by
            simp [FS.existsFile, hrf]
          simp [hex, ih]
      | some buf =>
          have hex : fs.existsFile (outputDir ++ "/" ++ f.url) = true := by
            simp [FS.existsFile, hrf]
          simp [hok f.url buf, ih, hex, uploadLogsOf]

theorem fsAfterMkdir_dirExists (w : World) :
    (fsAfterMkdir w).dirExists (outDirOf w) = true := by
  unfold fsAfterMkdir
  by_cases h : w.fs0.dirExists (outDirOf w) = true
  · rw [if_pos h]; exact h
  · rw [if_neg h]
    simp [FS.dirExists, FS.mkdir]

theorem fsFinal_readFile_zip (w : World)
    (hnd : ((foldersOf w).map Prod.fst).Nodup)
    (hev : ∀ pr ∈ foldersOf w, w.zipEvent pr.1 = .close)
    (pr : String × Tree) (hpr : pr ∈ foldersOf w) :
    (fsFinal w).readFile (outDirOf w ++ "/" ++ pr.1 ++ ".zip")
      = some (zipArchive pr.2) := by
  have hok : (runFolders w.sha w.zipEvent (outDirOf w) (fsAfterMkdir w)
        (foldersOf w)).2 = .ok ((foldersOf w).map (entryOf w.sha)) :=
    runFolders_ok_of_close _ _ _ _ _ hev
  unfold fsFinal
  rw [FS.readFile_writeFile_ne _ _ _ _ (Ne.symm (zipPath_ne_infoPath _ _))]
  exact runFolders_readback w.sha w.zipEvent (outDirOf w) (foldersOf w)
    (fsAfterMkdir w) _ hnd hok pr hpr

/-! ### Claims -/

/-- C1: for every folder processed in a run, the manifest entry recorded
in the files array has sha512 equal to the SHA-512 digest of the
produced zip file's bytes on disk at manifest-write time, and size
equal to that file's actual byte length. (Directory listings carry
no duplicate names, hence the Nodup hypothesis; the run must reach
the manifest write, hence the close-event hypothesis.) -/
theorem manifest_matches_disk (w : World)
    (hnd : ((foldersOf w).map Prod.fst).Nodup)
    (hne : foldersOf w ≠ [])
    (hev : ∀ pr ∈ foldersOf w, w.zipEvent pr.1 = .close) :
    (main w).manifest = some (infoOf w) ∧
    ∀ e ∈ (infoOf w).files,
      calculateSHA512 w.sha (main w).fs (outDirOf w ++ "/" ++ e.url)
          = some e.sha512 ∧
      getFileSize (main w).fs (outDirOf w ++ "/" ++ e.url) = some e.size := by
  rw [main_success w hne hev]
  refine ⟨rfl, ?_⟩
  intro e he
  simp only [infoOf, entriesOf] at he
  obtain ⟨pr, hpr, rfl⟩ := List.mem_map.mp he
  have hpath : outDirOf w ++ "/" ++ (entryOf w.sha pr).url
      = outDirOf w ++ "/" ++ pr.1 ++ ".zip" := by
    simp [entryOf, String.append_assoc]
  have hread := fsFinal_readFile_zip w hnd hev pr hpr
  constructor
  · show calculateSHA512 w.sha (fsFinal w) _ = _
    rw [hpath]
    simp [calculateSHA512, hread, entryOf]
  · show getFileSize (fsFinal w) _ = _
    rw [hpath]
    simp [getFileSize, hread, entryOf]

theorem manifest_matches_disk_witness :
    (main sampleWorld).manifest = some (infoOf sampleWorld) ∧
    (calculateSHA512 sampleWorld.sha (main sampleWorld).fs
        (outDirOf sampleWorld ++ "/" ++ (entryOf decStr ("core", sampleTree)).url)
        = some (entryOf decStr ("core", sampleTree)).sha512 ∧
     getFileSize (main sampleWorld).fs
        (outDirOf sampleWorld ++ "/" ++ (entryOf decStr ("core", sampleTree)).url)
        = some (entryOf decStr ("core", sampleTree)).size) :=
  ⟨(manifest_matches_disk sampleWorld (by decide) (by decide) (by decide)).1,
   (manifest_matches_disk sampleWorld (by decide) (by decide) (by decide)).2
     (entryOf decStr ("core", sampleTree)) (by decide)⟩

/-- C2: a run with the credential variable unset still exits 0, writes
every zip artifact and the manifest, and issues no remote calls. -/
theorem token_unset_local_run (w : World)
    (htok : w.token = none)
    (hne : foldersOf w ≠ [])
    (hev : ∀ pr ∈ foldersOf w, w.zipEvent pr.1 = .close) :
    (main w).exitCode = 0 ∧
    (main w).calls = [] ∧
    (main w).manifest = some (infoOf w) ∧
    (main w).fs.readFile (outDirOf w ++ "/info.json")
        = some (generateInfoJson (infoOf w)) ∧
    ∀ pr ∈ foldersOf w,
      (main w).fs.existsFile (outDirOf w ++ "/" ++ pr.1 ++ ".zip") = true := by
  rw [main_success w hne hev]
  refine ⟨rfl, ?_, rfl, ?_, ?_⟩
  · simp [pubOf, createGitHubRelease, htok]
  · exact FS.readFile_writeFile _ _ _
  · intro pr hpr
    show (fsFinal w).existsFile _ = true
    unfold fsFinal
    rw [FS.existsFile]
    rw [FS.readFile_writeFile_ne _ _ _ _ (Ne.symm (zipPath_ne_infoPath _ _))]
    obtain ⟨c, hc⟩ := runFolders_writes w.sha w.zipEvent (outDirOf w)
      (foldersOf w) (fsAfterMkdir w) hev pr hpr
    show ((fsZipped w).readFile _).isSome = true
    unfold fsZipped
    rw [hc]
    rfl

theorem token_unset_local_run_witness :
    sampleWorld.token = none ∧
    (main sampleWorld).exitCode = 0 ∧
    (main sampleWorld).calls = [] ∧
    (main sampleWorld).fs.existsFile
        (outDirOf sampleWorld ++ "/" ++ "core" ++ ".zip") = true :=
  ⟨rfl,
   (token_unset_local_run sampleWorld rfl (by decide) (by decide)).1,
   (token_unset_local_run sampleWorld rfl (by decide) (by decide)).2.1,
   (token_unset_local_run sampleWorld rfl (by decide) (by decide)).2.2.2.2
     ("core", sampleTree) (by decide)⟩

/-- C3: a run whose local packaging succeeded exits 0 whatever the
publisher does, and any error escaping the publisher's try body is
caught and logged, with the extra credential hint when its status
is HTTP 401. -/
theorem publish_failures_caught (w : World)
    (hne : foldersOf w ≠ [])
    (hev : ∀ pr ∈ foldersOf w, w.zipEvent pr.1 = .close) :
    (main w).exitCode = 0 ∧
    (∀ (api : RemoteAPI) (t version : String) (files : List FileEntry)
        (dir : String) (fs : FS) (e : ApiError),
      (publishBody api version files dir fs).caught = some e →
      (createGitHubRelease api (some t) version files dir fs).logs
          = (publishBody api version files dir fs).logs ++ catchLogs e ∧
      ("❌ GitHub release创建失败: " ++ e.message)
          ∈ (createGitHubRelease api (some t) version files dir fs).logs ∧
      (e.status = some 401 →
        "💡 请检查GH_TOKEN是否正确设置"
            ∈ (createGitHubRelease api (some t) version files dir fs).logs)) := by
  constructor
  · rw [main_success w hne hev]
  · intro api t version files dir fs e hcaught
    have hcg : createGitHubRelease api (some t) version files dir fs
        = { publishBody api version files dir fs with
            logs := (publishBody api version files dir fs).logs ++ catchLogs e } := by
      simp only [createGitHubRelease, hcaught]
    refine ⟨by rw [hcg], ?_, ?_⟩
    · rw [hcg]; simp [catchLogs]
    · intro h401
      rw [hcg]
      simp [catchLogs, h401]

theorem publish_failures_caught_witness :
    (main sampleWorld).exitCode = 0 ∧
    ("💡 请检查GH_TOKEN是否正确设置"
        ∈ (createGitHubRelease sampleApi401 (some "tok") "1.2.0" [] "dist/1.2.0"
            { files := [], dirs := [] }).logs) :=
  ⟨(publish_failures_caught sampleWorld (by decide) (by decide)).1,
   ((publish_failures_caught sampleWorld (by decide) (by decide)).2
      sampleApi401 "tok" "1.2.0" [] "dist/1.2.0" { files := [], dirs := [] }
      { status := some 401, message := "Bad credentials" } rfl).2.2 rfl⟩

/-- C4: the publisher fetches the release by tag v-version; exactly a
404 fetch failure triggers creation of a draft release with that tag;
any other fetch error propagates out of the fetch-or-create step; and
whenever a release handle is obtained, every asset upload call uses
that release's id. -/
theorem release_fetch_or_create (api : RemoteAPI) (version : String) :
    (∀ r, api.getReleaseByTag (tagOf version) = .ok r →
        fetchOrCreateRelease api version
          = ([Call.getReleaseByTag (tagOf version)],
             ["📋 找到已存在的release"], .ok r)) ∧
    (∀ e, api.getReleaseByTag (tagOf version) = .error e →
        (e.status = some 404 →
          (fetchOrCreateRelease api version).1
              = [Call.getReleaseByTag (tagOf version),
                 Call.createRelease (tagOf version)] ∧
          (fetchOrCreateRelease api version).2.2
              = api.createRelease (tagOf version)) ∧
        (e.status ≠ some 404 →
          fetchOrCreateRelease api version
            = ([Call.getReleaseByTag (tagOf version)], [], .error e))) ∧
    (∀ (files : List FileEntry) (dir : String) (fs : FS)
        (cs1 : List Call) (ls1 : List String) (rel : Release),
      fetchOrCreateRelease api version = (cs1, ls1, .ok rel) →
      ∀ i a, Call.uploadReleaseAsset i a
          ∈ (publishBody api version files dir fs).calls → i = rel.id) := by
  refine ⟨?_, ?_, ?_⟩
  · intro r h
    simp [fetchOrCreateRelease, h]
  · intro e h
    constructor
    · intro h404
      cases hcr : api.createRelease (tagOf version) <;>
        simp [fetchOrCreateRelease, h, h404, hcr]
    · intro h404
      simp [fetchOrCreateRelease, h, h404]
  · intro files dir fs cs1 ls1 rel hfetch i a hmem
    exact publishBody_upload_id api version files dir fs cs1 ls1 rel hfetch i a hmem

theorem release_fetch_or_create_witness :
    (fetchOrCreateRelease sampleApi "1.2.0").1
        = [Call.getReleaseByTag (tagOf "1.2.0"),
           Call.createRelease (tagOf "1.2.0")] ∧
    (fetchOrCreateRelease sampleApi "1.2.0").2.2
        = sampleApi.createRelease (tagOf "1.2.0") :=
  ((release_fetch_or_create sampleApi "1.2.0").2.1
      { status := some 404, message := "Not Found" } rfl).1 rfl

/-- C5: a source root with zero immediate subdirectories makes the run
exit 1, writing no file at all (in particular nothing under the
output directory), no manifest and no remote call. -/
theorem empty_source_fatal (w : World) (h : foldersOf w = []) :
    (main w).exitCode = 1 ∧ (main w).fs.files = w.fs0.files ∧
    (main w).manifest = none ∧ (main w).calls = [] := by
  rw [main_zero_folders w h]
  exact ⟨rfl, fsAfterMkdir_files w, rfl, rfl⟩

theorem empty_source_fatal_witness :
    foldersOf sampleWorldEmpty = [] ∧
    (main sampleWorldEmpty).exitCode = 1 ∧
    (main sampleWorldEmpty).fs.files = sampleWorldEmpty.fs0.files ∧
    (main sampleWorldEmpty).manifest = none ∧
    (main sampleWorldEmpty).calls = [] :=
  ⟨by decide,
   (empty_source_fatal sampleWorldEmpty (by decide)).1,
   (empty_source_fatal sampleWorldEmpty (by decide)).2.1,
   (empty_source_fatal sampleWorldEmpty (by decide)).2.2.1,
   (empty_source_fatal sampleWorldEmpty (by decide)).2.2.2⟩

/-- C6: the archiving promise resolves exactly on the output stream's
close event, and an archiver error event on any folder rejects the
operation and makes the whole run exit 1. -/
theorem archive_stream_events (w : World) :
    (∀ e, (zipFolderSignal e).isOk = true ↔ e = ZipEvent.close) ∧
    (∀ pr ∈ foldersOf w, ∀ m, w.zipEvent pr.1 = .archiveError m →
      (main w).exitCode = 1) := by
  constructor
  · intro e
    cases e <;> simp [zipFolderSignal, Except.isOk, Except.toBool]
  · intro pr hpr m hm
    have hne : foldersOf w ≠ [] := by
      intro hnil
      rw [hnil] at hpr
      simp at hpr
    exact main_error w hne ⟨pr, hpr, m, hm⟩

theorem archive_stream_events_witness :
    ((zipFolderSignal ZipEvent.close).isOk = true
        ↔ ZipEvent.close = ZipEvent.close) ∧
    (main sampleWorldErr).exitCode = 1 :=
  ⟨(archive_stream_events sampleWorldErr).1 ZipEvent.close,
   (archive_stream_events sampleWorldErr).2 ("core", sampleTree) (by decide)
     "write EPIPE" (by decide)⟩

/-- C7 counterexample: in a concrete publisher run where b.zip is
missing from disk, the artifact is skipped and the run does not fail,
but no console line mentions b.zip at all — the upload loop's exists
guard has no else branch, so the skip is silent, against the claim's
"skipped with a log message". -/
theorem upload_missing_silent_cex :
    cexFS.existsFile ("dist/1.2.0" ++ "/" ++ "b.zip") = false ∧
    cexPub.caught = none ∧
    cexPub.calls.filter (fun c => c.assetName = some "b.zip") = [] ∧
    cexPub.calls.filter (fun c => c.assetName = some "a.zip")
        = [Call.uploadReleaseAsset 5 "a.zip"] ∧
    cexPub.logs.filter (fun l => strMentions "b.zip" l) = [] := by
  decide

/-- C7 (amended): during asset upload, every artifact whose file exists
on disk is uploaded as a named asset under the release, and every
artifact whose file is missing from disk is skipped silently — no
upload call, no console line, and no failure of the loop. (Stated for
an upload endpoint that accepts the uploads, as the claim presumes.) -/
theorem upload_existing_skip_missing (api : RemoteAPI) (relId : Nat)
    (dir : String) (fs : FS) (files : List FileEntry)
    (hok : ∀ n b, api.uploadReleaseAsset relId n b = .ok ()) :
    uploadLoop api relId dir fs files
      = ((files.filter (fun f => fs.existsFile (dir ++ "/" ++ f.url))).map
           (fun f => Call.uploadReleaseAsset relId f.url),
         uploadLogsOf
           (files.filter (fun f => fs.existsFile (dir ++ "/" ++ f.url))),
         none) :=
  uploadLoop_all_ok api relId dir fs hok files

theorem upload_existing_skip_missing_witness :
    uploadLoop cexApiOk 5 "dist/1.2.0" cexFS cexFiles
      = ((cexFiles.filter
            (fun f => cexFS.existsFile ("dist/1.2.0" ++ "/" ++ f.url))).map
           (fun f => Call.uploadReleaseAsset 5 f.url),
         uploadLogsOf (cexFiles.filter
            (fun f => cexFS.existsFile ("dist/1.2.0" ++ "/" ++ f.url))),
         none) :=
  upload_existing_skip_missing cexApiOk 5 "dist/1.2.0" cexFS cexFiles
    (fun _ _ => rfl)

/-- C8: for every source folder of a run that completes its archiving,
the zip file written to the output directory extracts to exactly the
folder's relative file tree — same relative paths, same bytes, no
wrapper directory. -/
theorem zip_extracts_to_source (w : World)
    (hnd : ((foldersOf w).map Prod.fst).Nodup)
    (hev : ∀ pr ∈ foldersOf w, w.zipEvent pr.1 = .close) :
    ∀ pr ∈ foldersOf w,
      (main w).fs.readFile (outDirOf w ++ "/" ++ pr.1 ++ ".zip")
          = some (zipArchive pr.2) ∧
      unzipArchive (zipArchive pr.2) = pr.2 := by
  intro pr hpr
  have hne : foldersOf w ≠ [] := by
    intro hnil
    rw [hnil] at hpr
    simp at hpr
  rw [main_success w hne hev]
  exact ⟨fsFinal_readFile_zip w hnd hev pr hpr, unzipArchive_zipArchive pr.2⟩

theorem zip_extracts_to_source_witness :
    (main sampleWorld).fs.readFile
        (outDirOf sampleWorld ++ "/" ++ "core" ++ ".zip")
        = some (zipArchive sampleTree) ∧
    unzipArchive (zipArchive sampleTree) = sampleTree :=
  zip_extracts_to_source sampleWorld (by decide) (by decide)
    ("core", sampleTree) (by decide)

/-- C9: non-directory entries of the source root are ignored entirely —
the run behaves identically when they are removed from the listing —
and a source root holding only plain files hits the fatal
zero-subdirectory exit. -/
theorem nondirs_ignored (w : World) :
    main w = main { w with items := w.items.filter Item.isDirectory } ∧
    ((∀ i ∈ w.items, i.isDirectory = false) → (main w).exitCode = 1) := by
  constructor
  · simp only [main, dirsOf_filter]
  · intro h
    rw [main_zero_folders w (by simp [foldersOf, dirsOf_eq_nil w.items h])]

theorem nondirs_ignored_witness :
    main sampleWorldEmpty
        = main { sampleWorldEmpty with
                 items := sampleWorldEmpty.items.filter Item.isDirectory } ∧
    (main sampleWorldEmpty).exitCode = 1 :=
  ⟨(nondirs_ignored sampleWorldEmpty).1,
   (nondirs_ignored sampleWorldEmpty).2 (by decide)⟩

/-- C10: the output directory is created before the source root is
enumerated, so it exists in the final state even when the run aborts
with the zero-subdirectory fatal error, in which case nothing has
been written into it. -/
theorem outdir_exists_even_on_abort (w : World) :
    (main w).fs.dirExists (outDirOf w) = true ∧
    (foldersOf w = [] →
      (main w).exitCode = 1 ∧ (main w).fs.files = w.fs0.files) := by
  constructor
  · unfold FS.dirExists
    rw [main_dirs w]
    exact fsAfterMkdir_dirExists w
  · intro h
    rw [main_zero_folders w h]
    exact ⟨rfl, fsAfterMkdir_files w⟩

theorem outdir_exists_even_on_abort_witness :
    (main sampleWorldEmpty).fs.dirExists (outDirOf sampleWorldEmpty) = true ∧
    ((main sampleWorldEmpty).exitCode = 1 ∧
     (main sampleWorldEmpty).fs.files = sampleWorldEmpty.fs0.files) :=
  ⟨(outdir_exists_even_on_abort sampleWorldEmpty).1,
   (outdir_exists_even_on_abort sampleWorldEmpty).2 (by decide)⟩

end ReleaseScript

